import Mathlib

/-!
Verification of the transform core of the social-signals ETL pipeline.

The Python/pandas transform functions of `Intermediate_table.py`, the derived
fact-table measures of `Dim&fact.py`, and the schema inference of `fullload.py`
are shallowly embedded as executable Lean functions over lists of records.

Modelling conventions:
* a pandas DataFrame is a list of records (one structure per staging table);
* a nullable cell is `Option String`; pandas `astype(str)` prints a missing
  value as the string "nan" (`pyStr`);
* timestamps are modelled through an arbitrary best-effort parser
  `String → Option Nat` (`pd.to_datetime(errors="coerce")` yields `none`
  exactly on the values the parser rejects);
* monetary float columns are modelled by a type `V` carrying `Add`/`Zero`;
  the transforms only ever add such values and fold them with `List.sum`,
  so every theorem below holds for any such `V` (witnesses use `V = Int`);
* `groupby` materialises the distinct key values (`List.dedup`) and
  aggregates the rows matching each key (`List.filter`); no claim below
  depends on the order in which pandas emits the groups;
* Python `str(i)` on an integer is `Int.repr`, Python ascending `sorted` is
  an insertion sort `pySorted`, `", ".join` / `.split(", ")` are `joinCS` /
  `splitCS` on character lists.
-/

namespace SocialSignals

/-- pandas `astype(str)` on a nullable cell: `NaN` prints as `"nan"`. -/
def pyStr : Option String → String
  | none => "nan"
  | some s => s

/-- One step of Python `str.title()`: uppercase a letter that follows a
non-letter, lowercase the rest. -/
def pyTitleAux : Bool → List Char → List Char
  | _, [] => []
  | up, c :: cs => (if up then c.toUpper else c.toLower) :: pyTitleAux (!c.isAlpha) cs

/-- Python `str.title()`. -/
def pyTitle (s : String) : String := ⟨pyTitleAux true s.data⟩

/-- Python `str.replace('_', ' ')`. -/
def usToSpace (s : String) : String := ⟨s.data.map fun c => if c = '_' then ' ' else c⟩

/-- Python `str.lower()` (ASCII). -/
def pyLower (s : String) : String := ⟨s.data.map Char.toLower⟩

/-- Numeric value of a digit string, most-significant digit first (used only
to prove that `Nat.repr` is injective). -/
def valCS (l : List Char) : Nat := l.foldl (fun acc c => acc * 10 + (c.toNat - 48)) 0

/-- Python `", ".join`, at the character-list level. -/
def joinCS : List (List Char) → List Char
  | [] => []
  | [p] => p
  | p :: q :: r => p ++ ',' :: ' ' :: joinCS (q :: r)

/-- Python `.split(", ")` (leftmost, non-overlapping occurrences of the
two-character separator), at the character-list level. -/
def splitCS : List Char → List (List Char)
  | [] => [[]]
  | [c] => [[c]]
  | c :: d :: t =>
    if c = ',' ∧ d = ' ' then [] :: splitCS t
    else
      match splitCS (d :: t) with
      | [] => [[c]]
      | p :: ps => (c :: p) :: ps

/-- Join a list of strings with `", "`. -/
def joinStrs (parts : List String) : String := ⟨joinCS (parts.map String.data)⟩

/-- Stable-enough model of Python ascending `sorted`: insertion. -/
def insertLe {α : Type} (le : α → α → Bool) (a : α) : List α → List α
  | [] => [a]
  | b :: t => if le a b then a :: b :: t else b :: insertLe le a t

/-- Python `sorted` with an ascending Boolean order. -/
def pySorted {α : Type} (le : α → α → Bool) : List α → List α
  | [] => []
  | a :: t => insertLe le a (pySorted le t)

def intLeB (a b : Int) : Bool := decide (a ≤ b)

def strLeB (a b : String) : Bool := decide (a ≤ b)

/-- Python substring test `needle == hay[:len(needle)]`. -/
def leadsWith : List Char → List Char → Bool
  | [], _ => true
  | _ :: _, [] => false
  | a :: as, b :: bs => a == b && leadsWith as bs

/-- Python substring containment `needle in hay`. -/
def hasSub (n : List Char) : List Char → Bool
  | [] => n.isEmpty
  | c :: t => leadsWith n (c :: t) || hasSub n t

/-- The synthesized feedback key produced at line 107 of
`Intermediate_table.py`: `cumcount().astype(str) + "_" + feedback_id`.
Note the running count is written BEFORE the original identifier. -/
def enc (c : Nat) (id : String) : String := ⟨(Nat.repr c).data ++ '_' :: id.data⟩

/-- `groupby('feedback_id').cumcount()` key synthesis: each identifier is
replaced by `enc` of the number of earlier occurrences of the same value. -/
def cumRename (seenIds : List String) : List String → List String
  | [] => []
  | id :: rest => enc (seenIds.count id) id :: cumRename (seenIds ++ [id]) rest

/-- Follows the claim's wording only (not the code): key synthesis that
APPENDS the occurrence counter to the original key as a suffix. -/
def specSuffixEnc (c : Nat) (id : String) : String := ⟨id.data ++ '_' :: (Nat.repr c).data⟩

/-- Follows the claim's wording only (not the code): the suffix-appending
variant of `cumRename`, for comparison against the implementation. -/
def specSuffixRename (seenIds : List String) : List String → List String
  | [] => []
  | id :: rest => specSuffixEnc (seenIds.count id) id :: specSuffixRename (seenIds ++ [id]) rest

/-! ### Generic date-column coercion (`transform_date_columns`) -/

/-- A loosely typed staging cell: either still raw text (nullable) or an
already parsed datetime (nullable, `none` = `NaT`). -/
inductive PCell where
  | rawv (v : Option String)
  | dt (v : Option Nat)
deriving DecidableEq

/-- `pd.to_datetime(col, errors="coerce")`: raw cells are parsed best-effort
(`none` for missing or unparseable), datetime cells pass through. -/
def coerceCol (parse : String → Option Nat) (cells : List PCell) : List PCell :=
  cells.map fun c =>
    match c with
    | PCell.rawv v => PCell.dt (v.bind parse)
    | PCell.dt v => PCell.dt v

/-- `transform_date_columns` of `Intermediate_table.py` (lines 65-74): every
column whose lower-cased name contains `"_date"` is coerced, all other
columns are left untouched. The function is total: coercion never fails. -/
def transform_date_columns (parse : String → Option Nat)
    (tbl : List (String × List PCell)) : List (String × List PCell) :=
  tbl.map fun col =>
    if hasSub "_date".data (pyLower col.1).data then (col.1, coerceCol parse col.2) else col

/-- Is the cell in parsed (datetime) form? -/
def isDtCell : PCell → Bool
  | PCell.rawv _ => false
  | PCell.dt _ => true

/-- Are all cells of every column named `nm` in parsed (datetime) form? -/
def colAllDt (tbl : List (String × List PCell)) (nm : String) : Bool :=
  (tbl.filter fun c => c.1 == nm).all fun c => c.2.all isDtCell

/-! ### Payments dimension (`transform_payments_table`, lines 76-98) -/

structure RawPayment (V : Type) where
  order_id : Option String
  payment_sequential : Int
  payment_installments : Int
  payment_value : V
  payment_type : Option String
deriving DecidableEq

structure PaymentRow (V : Type) where
  payment_id : String
  payment_sequential : String
  payment_installments : String
  payment_type : String
  payment_value : V
deriving DecidableEq

/-- The merged payment row for one `payment_id` group. -/
def payMkRow {V : Type} [Add V] [Zero V] (rows : List (RawPayment V)) (k : String) :
    PaymentRow V :=
  let grp := rows.filter fun r => decide (pyStr r.order_id = k)
  { payment_id := k
    payment_sequential :=
      joinStrs ((pySorted intLeB (grp.map (·.payment_sequential))).map Int.repr)
    payment_installments :=
      joinStrs ((pySorted intLeB (grp.map (·.payment_installments))).map Int.repr)
    payment_type :=
      joinStrs (pySorted strLeB (grp.map fun r => pyTitle (usToSpace (pyStr r.payment_type))))
    payment_value := (grp.map (·.payment_value)).sum }

/-- `transform_payments_table`: rename `order_id` to `payment_id`, cast it to
string, group by it, and aggregate (sorted comma-joins, summed value). -/
def transform_payments_table {V : Type} [Add V] [Zero V] (rows : List (RawPayment V)) :
    List (PaymentRow V) :=
  ((rows.map fun r => pyStr r.order_id).dedup).map (payMkRow rows)

/-! ### Feedback dimension (`transform_feedback_table`, lines 100-116) -/

structure RawFeedback where
  feedback_id : Option String
  order_id : Option String
  feedback_score : Int
  feedback_form_sent_date : Option String
  feedback_answer_date : Option String
deriving DecidableEq

structure FeedbackRow where
  feedback_id : String
  order_id : Option String
  feedback_score : Int
  feedback_form_sent_date : Option Nat
  feedback_answer_date : Option Nat
deriving DecidableEq

/-- Row-by-row body of `transform_feedback_table`, carrying the list of
already seen raw identifiers (so `seenIds.count id` is pandas `cumcount`). -/
def transform_feedback_aux (parse : String → Option Nat) :
    List String → List RawFeedback → List FeedbackRow
  | _, [] => []
  | seenIds, r :: rest =>
    { feedback_id := enc (seenIds.count (pyStr r.feedback_id)) (pyStr r.feedback_id)
      order_id := r.order_id
      feedback_score := r.feedback_score
      feedback_form_sent_date := r.feedback_form_sent_date.bind parse
      feedback_answer_date := r.feedback_answer_date.bind parse } ::
      transform_feedback_aux parse (seenIds ++ [pyStr r.feedback_id]) rest

/-- `transform_feedback_table`: cast the key to string, replace it by the
occurrence-counter synthesis, and coerce the `_date` columns. -/
def transform_feedback_table (parse : String → Option Nat) (rows : List RawFeedback) :
    List FeedbackRow :=
  transform_feedback_aux parse [] rows

/-! ### Products and sellers dimensions (lines 118-138) -/

structure RawProduct where
  product_id : Option String
  product_category : Option String
deriving DecidableEq

structure ProductRow where
  product_id : String
  product_category : String
deriving DecidableEq

/-- `transform_products_table`: pure per-row recoding, no deduplication.
`.str` operations skip missing values, the final `astype(str)` prints them. -/
def transform_products_table (rows : List RawProduct) : List ProductRow :=
  rows.map fun r =>
    { product_id := pyStr r.product_id
      product_category :=
        match r.product_category with
        | none => "nan"
        | some s => pyTitle (usToSpace s) }

structure RawSeller where
  seller_id : Option String
  seller_zip_code : Option String
  seller_city : Option String
  seller_state : Option String
deriving DecidableEq

structure SellerRow where
  seller_id : String
  seller_zip_code : String
  seller_city : String
  seller_state : String
deriving DecidableEq

/-- `transform_sellers_table`: pure per-row recoding, no deduplication
(`astype(str)` runs before `.str.title()`, so missing becomes `"Nan"`). -/
def transform_sellers_table (rows : List RawSeller) : List SellerRow :=
  rows.map fun r =>
    { seller_id := pyStr r.seller_id
      seller_zip_code := pyStr r.seller_zip_code
      seller_city := pyTitle (pyStr r.seller_city)
      seller_state := pyTitle (pyStr r.seller_state) }

/-! ### Users dimension (`transform_users_table`, lines 140-170) -/

structure RawUser where
  user_name : Option String
  customer_zip_code : Option String
  customer_city : Option String
  customer_state : Option String
deriving DecidableEq

structure UserRow where
  user_id : String
  user_zip_code : String
  user_city : String
  user_state : String
deriving DecidableEq

/-- pandas `Series.unique()`: the distinct values in first-seen order. -/
def firstUniqueAux (seenVals : List String) : List String → List String
  | [] => []
  | a :: t =>
    if a ∈ seenVals then firstUniqueAux seenVals t
    else a :: firstUniqueAux (seenVals ++ [a]) t

def firstUnique (l : List String) : List String := firstUniqueAux [] l

/-- The merged user row for one `user_id` group. -/
def userMkRow (rows : List RawUser) (k : String) : UserRow :=
  let grp := rows.filter fun r => decide (pyStr r.user_name = k)
  { user_id := k
    user_zip_code := joinStrs (firstUnique (grp.map fun r => pyStr r.customer_zip_code))
    user_city := joinStrs (firstUnique (grp.map fun r => pyTitle (pyStr r.customer_city)))
    user_state := joinStrs (firstUnique (grp.map fun r => pyTitle (pyStr r.customer_state))) }

/-- `transform_users_table`: rename, recode, group by `user_id` and join the
distinct ZIP/city/state values. -/
def transform_users_table (rows : List RawUser) : List UserRow :=
  ((rows.map fun r => pyStr r.user_name).dedup).map (userMkRow rows)

/-! ### Order aggregate (`transform_orders_table`, lines 172-199) -/

structure RawOrder where
  order_id : Option String
  user_name : Option String
  order_status : Option String
  order_date : Option String
  order_approved_date : Option String
  pickup_date : Option String
  delivered_date : Option String
  estimated_time_delivery : Option String
deriving DecidableEq

structure OrderRow where
  order_id : String
  user_id : String
  order_status : String
  order_date : Option Nat
  order_approved_date : Option Nat
  pickup_date : Option Nat
  delivered_date : Option Nat
  estimated_time_delivery : Option String
  feedback_id : Option String
deriving DecidableEq

/-- One output row of the order transform: key columns cast to string, the
four `_date` columns best-effort parsed by `transform_date_columns`
(`estimated_time_delivery` does NOT contain `"_date"` and stays raw), and
the feedback key attached by the merge. -/
def coerceOrder (parse : String → Option Nat) (o : RawOrder) (fbid : Option String) :
    OrderRow :=
  { order_id := pyStr o.order_id
    user_id := pyStr o.user_name
    order_status := pyStr o.order_status
    order_date := o.order_date.bind parse
    order_approved_date := o.order_approved_date.bind parse
    pickup_date := o.pickup_date.bind parse
    delivered_date := o.delivered_date.bind parse
    estimated_time_delivery := o.estimated_time_delivery
    feedback_id := fbid }

/-- `transform_orders_table`: left merge with the transformed feedback table
on `order_id` — one output row per (order row, matching feedback row), a
single row with a null key when no feedback matches. -/
def transform_orders_table (parse : String → Option Nat) (orders : List RawOrder)
    (fb : List FeedbackRow) : List OrderRow :=
  orders.flatMap fun o =>
    match fb.filter (fun m => m.order_id == some (pyStr o.order_id)) with
    | [] => [coerceOrder parse o none]
    | m :: ms => (m :: ms).map fun m2 => coerceOrder parse o (some m2.feedback_id)

/-! ### Line-item aggregate (`transform_order_item_table`, lines 201-234) -/

structure RawOrderItem (V : Type) where
  order_id : Option String
  order_item_id : Int
  product_id : Option String
  seller_id : Option String
  price : V
  shipping_cost : V
deriving DecidableEq

structure OrderItemRow (V : Type) where
  order_id : String
  product_id : String
  seller_id : String
  order_item_id : String
  price : V
  shipping_cost : V
  quantity : Nat
deriving DecidableEq

/-- The composite grouping key `product_id.astype(str) + "-" + seller_id.astype(str)`. -/
def pairKey {V : Type} (r : RawOrderItem V) : String :=
  ⟨(pyStr r.product_id).data ++ '-' :: (pyStr r.seller_id).data⟩

/-- The `groupby(["order_id", "ProductSellerPair"])` key of a raw row.
`transform_order_item_table` never casts `order_id` to string (unlike the
two pair components), so a missing `order_id` is an NA group key and the
key is `none`: pandas `groupby` silently DROPS such rows. -/
def oiKey {V : Type} (r : RawOrderItem V) : Option (String × String) :=
  r.order_id.map fun o => (o, pairKey r)

/-- The distinct `(order_id, ProductSellerPair)` group keys; rows with a
missing `order_id` contribute no key. -/
def oiKeys {V : Type} (rows : List (RawOrderItem V)) : List (String × String) :=
  (rows.filterMap oiKey).dedup

/-- The raw rows belonging to one group key (rows with a missing `order_id`
belong to no group). -/
def oiGroup {V : Type} (rows : List (RawOrderItem V)) (k : String × String) :
    List (RawOrderItem V) :=
  rows.filter fun r => decide (oiKey r = some k)

/-- `", ".join(map(str, sorted(order_item_ids)))` for one group. -/
def oiJoined {V : Type} (grp : List (RawOrderItem V)) : List Char :=
  joinCS ((pySorted intLeB (grp.map (·.order_item_id))).map fun i => (Int.repr i).data)

/-- pandas `parts[0]` of `str.split("-", expand=True)` on a one-dash string. -/
def strUntilDash (s : String) : String := ⟨s.data.takeWhile fun c => c != '-'⟩

/-- pandas `parts[1]` of `str.split("-", expand=True)` on a one-dash string. -/
def strAfterDash (s : String) : String := ⟨(s.data.dropWhile fun c => c != '-').tail⟩

/-- The aggregated output row for one group key: sorted comma-joined item
ids, summed price and shipping cost, and `Quantity = len(x.split(", "))`. -/
def oiMkRow {V : Type} [Add V] [Zero V] (rows : List (RawOrderItem V))
    (k : String × String) : OrderItemRow V :=
  let grp := oiGroup rows k
  { order_id := k.1
    product_id := strUntilDash k.2
    seller_id := strAfterDash k.2
    order_item_id := ⟨oiJoined grp⟩
    price := (grp.map (·.price)).sum
    shipping_cost := (grp.map (·.shipping_cost)).sum
    quantity := (splitCS (oiJoined grp)).length }

/-- `transform_order_item_table`: group by `(order_id, ProductSellerPair)`
— dropping rows with a missing `order_id`, as pandas `groupby` does for NA
keys — and aggregate. Splitting the pair column back on `"-"` must produce
exactly two columns: the column assignment raises and the function returns
`None` when the grouped frame is empty or some product/seller id contains
a dash. -/
def transform_order_item_table {V : Type} [Add V] [Zero V] (rows : List (RawOrderItem V)) :
    Option (List (OrderItemRow V)) :=
  let keys := oiKeys rows
  if keys.isEmpty || keys.any (fun k => k.2.data.count '-' != 1) then none
  else some (keys.map (oiMkRow rows))

/-- The natural grouping key of an aggregated line-item row. -/
def keyTriple {V : Type} (q : OrderItemRow V) : String × String × String :=
  (q.order_id, q.product_id, q.seller_id)

/-! ### Calendar generator (`create_date_and_time_tables`, lines 246-293) -/

structure Date where
  y : Nat
  m : Nat
  d : Nat
deriving DecidableEq

def isLeap (y : Nat) : Bool := (y % 4 == 0 && y % 100 != 0) || y % 400 == 0

def daysInMonth (y m : Nat) : Nat :=
  if m = 2 then (if isLeap y then 29 else 28)
  else if m = 4 ∨ m = 6 ∨ m = 9 ∨ m = 11 then 30 else 31

/-- The calendar successor day (the daily step of `pd.date_range`). -/
def nextDay (dt : Date) : Date :=
  if dt.d < daysInMonth dt.y dt.m then ⟨dt.y, dt.m, dt.d + 1⟩
  else if dt.m < 12 then ⟨dt.y, dt.m + 1, 1⟩
  else ⟨dt.y + 1, 1, 1⟩

/-- `DateKey = int(strftime('%Y%m%d'))`. -/
def dateKey (dt : Date) : Nat := dt.y * 10000 + dt.m * 100 + dt.d

def startDate : Date := ⟨2016, 4, 9⟩

def endDate : Date := ⟨2018, 10, 17⟩

/-- Enumerate days from `cur` while `cur ≤ 2018-10-17` (fuelled recursion;
the fuel is ample for the fixed range). -/
def dateRangeAux : Nat → Date → List Date
  | 0, _ => []
  | fuel + 1, cur =>
    if dateKey cur ≤ dateKey endDate then cur :: dateRangeAux fuel (nextDay cur) else []

/-- The `date_d` dimension: every day of `pd.date_range("2016-04-09", "2018-10-17")`. -/
def date_d : List Date := dateRangeAux 1000 startDate

structure TimeRow where
  hour : Nat
  minute : Nat
deriving DecidableEq

/-- The minute step of `pd.date_range(freq='T')`. -/
def nextMinute (t : TimeRow) : TimeRow :=
  if t.minute < 59 then ⟨t.hour, t.minute + 1⟩ else ⟨t.hour + 1, 0⟩

/-- Enumerate minutes from `cur` while `cur ≤ 23:59:59` (seconds are always
zero, so the bound is `hour ≤ 23`). -/
def timeRangeAux : Nat → TimeRow → List TimeRow
  | 0, _ => []
  | fuel + 1, cur =>
    if cur.hour ≤ 23 then cur :: timeRangeAux fuel (nextMinute cur) else []

/-- The `times_d` dimension: every minute `00:00 .. 23:59`. -/
def times_d : List TimeRow := timeRangeAux 2000 ⟨0, 0⟩

/-- `TimeKey = int(str(time).replace(":", ""))` with seconds zero. -/
def timeKey (t : TimeRow) : Nat := t.hour * 10000 + t.minute * 100

/-- Boolean adjacent-pairs check (decidable stand-in for `List.Chain'`). -/
def adjChainB {α : Type} (f : α → α → Bool) : List α → Bool
  | [] => true
  | [_] => true
  | a :: b :: t => f a b && adjChainB f (b :: t)

/-! ### Fact-table derived measures (`insert_into_fact_order_items`, lines 240-295) -/

/-- Day serial number (proleptic Gregorian civil-calendar formula), used to
give `DATEDIFF` its day-difference semantics. -/
def dayNumN (dt : Date) : Nat :=
  let yAdj := if dt.m ≤ 2 then dt.y - 1 else dt.y
  let mAdj := if dt.m ≤ 2 then dt.m + 9 else dt.m - 3
  yAdj * 365 + yAdj / 4 - yAdj / 100 + yAdj / 400 + (153 * mAdj + 2) / 5 + dt.d - 1

def dayNum (dt : Date) : Int := (dayNumN dt : Int)

/-- The `LEFT JOIN date_d ON DATE(ts) = DATE(Date)` lookup: a date joins iff
it lies in the calendar table, otherwise the joined columns are `NULL`. -/
def calLookup (d : Date) : Option Date := if d ∈ date_d then some d else none

/-- SQL `a > b` under three-valued logic, as used by `CASE WHEN`: comparison
with `NULL` is not true. -/
def sqlGtB : Option Int → Option Int → Bool
  | some a, some b => decide (b < a)
  | _, _ => false

/-- `CASE WHEN d2.DateKey > d3.DateKey THEN 'TRUE' ELSE 'FALSE' END`. -/
def deliveryDelayCheck (dk ek : Option Int) : String :=
  if sqlGtB dk ek then "TRUE" else "FALSE"

/-- SQL `DATEDIFF` on nullable day numbers: `NULL` if either side is `NULL`. -/
def dateDiffSql : Option Int → Option Int → Option Int
  | some a, some b => some (a - b)
  | _, _ => none

/-- `CASE WHEN DATEDIFF(d2.Date, d3.Date) < 0 THEN 0 ELSE DATEDIFF(...) END`:
the clamped delay; `NULL` when either joined date is `NULL` (the `WHEN`
condition is not true, and the `ELSE` branch is itself `NULL`). -/
def deliveryDelayDays (dn en : Option Int) : Option Int :=
  match dateDiffSql dn en with
  | some v => if v < 0 then some 0 else some v
  | none => none

/-- The `DeliveryDelayCheck` column of a fact row, from the (nullable)
delivered and estimated timestamps joined against the calendar. -/
def factDelayCheck (delivered estimated : Option Date) : String :=
  deliveryDelayCheck ((delivered.bind calLookup).map fun d => (dateKey d : Int))
    ((estimated.bind calLookup).map fun d => (dateKey d : Int))

/-- The `DeliveryDelayDays` column of a fact row. -/
def factDelayDays (delivered estimated : Option Date) : Option Int :=
  deliveryDelayDays ((delivered.bind calLookup).map dayNum)
    ((estimated.bind calLookup).map dayNum)

/-! ### Raw-loader schema inference (`preprocess_and_infer_schema`, fullload.py 55-89) -/

/-- A staged column after schema inference: integer, float, datetime or text.
Only the datetime case keeps missing values. -/
inductive SCol where
  | intsc (vs : List Int)
  | floatsc (vs : List Rat)
  | datesc (vs : List (Option Nat))
  | textsc (vs : List String)
deriving DecidableEq

/-- `preprocess_and_infer_schema`, one column at a time. `pnum` and `pdate`
are the best-effort numeric and datetime parsers (`errors='coerce'`);
a missing cell never parses. If at least one cell parses numerically the
whole column becomes numeric — integer when every parsed value is whole
(`x % 1 == 0`), i.e. has denominator 1 — with `NaN` filled by `0`/`0.0`;
otherwise, if at least one cell parses as a datetime the column keeps its
`NaT`s; otherwise text, with `NaN` filled by `""`. -/
def inferColumn (pnum : String → Option Rat) (pdate : String → Option Nat)
    (col : List (Option String)) : SCol :=
  let nums := col.map fun c => c.bind pnum
  if nums.any Option.isSome then
    if nums.all (fun o => match o with | some q => q.den == 1 | none => true) then
      SCol.intsc (nums.map fun o => (o.getD 0).num)
    else
      SCol.floatsc (nums.map fun o => o.getD 0)
  else
    let dts := col.map fun c => c.bind pdate
    if dts.any Option.isSome then SCol.datesc dts
    else SCol.textsc (col.map fun c => c.getD "")

/-! ### Concrete sample records used by witnesses and counterexamples -/

/-- A parser that rejects everything (all values unparseable). -/
def pNone : String → Option Nat := fun _ => none

/-- A parser that accepts everything (all values parse to epoch 0). -/
def pSome : String → Option Nat := fun _ => some 0

def productA : RawProduct := ⟨some "p1", some "cat_a"⟩

def sellerA : RawSeller := ⟨some "s1", some "123", some "city", some "st"⟩

def fbRawA : RawFeedback := ⟨some "a", some "o1", 5, none, none⟩

def fbRawB : RawFeedback := ⟨some "b", some "o1", 4, none, none⟩

def orderRawA : RawOrder :=
  ⟨some "o1", some "u1", some "delivered", some "2017-11-24 10:15:00", none, none, none,
    some "2017-11-25 00:00:00"⟩

def oiRawA : RawOrderItem Int := ⟨some "o1", 1, some "p1", some "s1", 0, 0⟩

def oiRawNone : RawOrderItem Int := ⟨none, 1, some "p1", some "s1", 0, 0⟩

def payRawA : RawPayment Int := ⟨some "o1", 1, 1, 7, some "credit_card"⟩

/-- A numeric parser accepting only the literal `"n"` (value 2). -/
def pnumW : String → Option Rat := fun s => if s = "n" then some 2 else none

def estTbl : List (String × List PCell) :=
  [("estimated_time_delivery", [PCell.rawv (some "2017-11-24 10:15:00")])]

def dlvTbl : List (String × List PCell) :=
  [("delivered_date", [PCell.rawv (some "2017-11-27 08:00:00")])]

/-! ## Helper lemmas on the string utilities -/

theorem splitCS_ne_nil : ∀ l : List Char, splitCS l ≠ []
  | [] => by simp [splitCS]
  | [c] => by simp [splitCS]
  | c :: d :: t => by
    by_cases h : c = ',' ∧ d = ' '
    · simp [splitCS, h]
    · simp only [splitCS, if_neg h]
      cases hs : splitCS (d :: t) <;> simp

theorem splitCS_no_comma : ∀ p : List Char, ',' ∉ p → splitCS p = [p]
  | [], _ => rfl
  | [c], _ => rfl
  | c :: d :: t, h => by
    have hc : c ≠ ',' := fun hh => h (by simp [hh])
    have hdt : ',' ∉ d :: t := fun hm => h (List.mem_cons_of_mem _ hm)
    have ih := splitCS_no_comma (d :: t) hdt
    simp only [splitCS]
    rw [if_neg (fun hand => hc hand.1), ih]

theorem splitCS_boundary (t : List Char) :
    ∀ p : List Char, ',' ∉ p → splitCS (p ++ ',' :: ' ' :: t) = p :: splitCS t
  | [], _ => by simp [splitCS]
  | c :: p', h => by
    have hc : c ≠ ',' := fun hh => h (by simp [hh])
    have hp' : ',' ∉ p' := fun hm => h (List.mem_cons_of_mem _ hm)
    have ih := splitCS_boundary t p' hp'
    cases hs : p' ++ ',' :: ' ' :: t with
    | nil => exact absurd hs (by simp)
    | cons d t' =>
      rw [List.cons_append, hs]
      simp only [splitCS]
      rw [if_neg (fun hand => hc hand.1), ← hs, ih]

theorem splitCS_joinCS :
    ∀ parts : List (List Char), parts ≠ [] → (∀ p ∈ parts, ',' ∉ p) →
      splitCS (joinCS parts) = parts
  | [], h, _ => absurd rfl h
  | [p], _, hp => by
    simpa [joinCS] using splitCS_no_comma p (hp p (by simp))
  | p :: q :: r, _, hp => by
    have h1 : ',' ∉ p := hp p (by simp)
    have ih :=
      splitCS_joinCS (q :: r) (by simp) (fun x hx => hp x (List.mem_cons_of_mem _ hx))
    simp only [joinCS]
    rw [splitCS_boundary _ p h1, ih]

/-! ## Digit strings: `Nat.repr` consists of digits and is injective -/

theorem digitChar_isDigit : ∀ m : Nat, m < 10 → (Nat.digitChar m).isDigit = true := by decide

theorem toDigitsCore_isDigit :
    ∀ (fuel n : Nat) (ds : List Char), (∀ c ∈ ds, c.isDigit = true) →
      ∀ c ∈ Nat.toDigitsCore 10 fuel n ds, c.isDigit = true := by
  intro fuel
  induction fuel with
  | zero => intro n ds hds; simpa [Nat.toDigitsCore] using hds
  | succ f ih =>
    intro n ds hds
    have hcons : ∀ c ∈ Nat.digitChar (n % 10) :: ds, c.isDigit = true := by
      intro c hc
      rcases List.mem_cons.1 hc with h | h
      · exact h ▸ digitChar_isDigit _ (Nat.mod_lt _ (by decide))
      · exact hds c h
    simp only [Nat.toDigitsCore]
    split
    · exact hcons
    · exact ih (n / 10) _ hcons

theorem natRepr_isDigit (n : Nat) : ∀ c ∈ (Nat.repr n).data, c.isDigit = true := by
  have h : (Nat.repr n).data = Nat.toDigitsCore 10 (n + 1) n [] := rfl
  rw [h]
  exact toDigitsCore_isDigit (n + 1) n [] (by simp)

theorem natRepr_no_uscore (n : Nat) : '_' ∉ (Nat.repr n).data := by
  intro hmem
  exact absurd (natRepr_isDigit n _ hmem) (by decide)

theorem natRepr_no_comma (n : Nat) : ',' ∉ (Nat.repr n).data := by
  intro hmem
  exact absurd (natRepr_isDigit n _ hmem) (by decide)

theorem intRepr_no_comma : ∀ i : Int, ',' ∉ (Int.repr i).data
  | Int.ofNat m => natRepr_no_comma m
  | Int.negSucc m => by
    have h : (Int.repr (Int.negSucc m)).data = '-' :: (Nat.repr (m + 1)).data := rfl
    rw [h]
    intro hmem
    rcases List.mem_cons.1 hmem with h1 | h1
    · exact absurd h1 (by decide)
    · exact natRepr_no_comma (m + 1) h1

theorem foldl_val_scale :
    ∀ (l : List Char) (a : Nat),
      l.foldl (fun acc c => acc * 10 + (c.toNat - 48)) a = a * 10 ^ l.length + valCS l
  | [], a => by simp [valCS]
  | c :: t, a => by
    have ih1 := foldl_val_scale t (a * 10 + (c.toNat - 48))
    have ih2 := foldl_val_scale t (c.toNat - 48)
    have hv : valCS (c :: t) = (c.toNat - 48) * 10 ^ t.length + valCS t := by
      simp only [valCS, List.foldl_cons, Nat.zero_mul, Nat.zero_add] at ih2 ⊢
      exact ih2
    simp only [List.foldl_cons, List.length_cons, hv, ih1]
    ring

theorem valCS_toDigitsCore :
    ∀ (fuel n : Nat) (ds : List Char), n < fuel →
      valCS (Nat.toDigitsCore 10 fuel n ds) = n * 10 ^ ds.length + valCS ds := by
  intro fuel
  induction fuel with
  | zero => intro n ds h; exact absurd h (Nat.not_lt_zero n)
  | succ f ih =>
    intro n ds h
    have hdv : (Nat.digitChar (n % 10)).toNat - 48 = n % 10 := by
      have hlt : n % 10 < 10 := Nat.mod_lt _ (by decide)
      revert hlt
      generalize n % 10 = m
      revert m
      decide
    have hvcons : valCS (Nat.digitChar (n % 10) :: ds) = n % 10 * 10 ^ ds.length + valCS ds := by
      simp only [valCS, List.foldl_cons, Nat.zero_mul, Nat.zero_add, hdv]
      have := foldl_val_scale ds (n % 10)
      simpa [valCS] using this
    simp only [Nat.toDigitsCore]
    split
    · next hdiv =>
      have hn : n % 10 = n := Nat.mod_eq_of_lt ((Nat.div_eq_zero_iff (by decide)).1 hdiv)
      rw [hvcons, hn]
    · next hdiv =>
      have hnpos : 0 < n := by
        rcases Nat.eq_zero_or_pos n with h0 | h0
        · exact absurd (by simp [h0]) hdiv
        · exact h0
      have hlt : n / 10 < f :=
        Nat.lt_of_lt_of_le (Nat.div_lt_self hnpos (by decide)) (Nat.lt_succ_iff.1 h)
      rw [ih (n / 10) _ hlt, hvcons]
      have hmod := Nat.div_add_mod n 10
      simp only [List.length_cons]
      ring_nf
      nlinarith [Nat.div_add_mod n 10, pow_pos (show 0 < 10 by decide) ds.length]

theorem valCS_natRepr (n : Nat) : valCS (Nat.repr n).data = n := by
  have h : (Nat.repr n).data = Nat.toDigitsCore 10 (n + 1) n [] := rfl
  rw [h, valCS_toDigitsCore (n + 1) n [] (Nat.lt_succ_self n)]
  simp [valCS]

theorem natReprData_inj {a b : Nat} (h : (Nat.repr a).data = (Nat.repr b).data) : a = b := by
  have h2 := congrArg valCS h
  rwa [valCS_natRepr, valCS_natRepr] at h2

theorem strData_inj {a b : String} (h : a.data = b.data) : a = b := by
  cases a
  cases b
  exact congrArg String.mk h

/-! ## Injectivity of the synthesized feedback keys -/

theorem uscore_split_inj :
    ∀ (l1 l2 r1 r2 : List Char), '_' ∉ l1 → '_' ∉ l2 →
      l1 ++ '_' :: r1 = l2 ++ '_' :: r2 → l1 = l2 ∧ r1 = r2
  | [], [], r1, r2, _, _, h => ⟨rfl, by simpa using h⟩
  | [], c :: l2, r1, r2, _, h2, h => by
    simp only [List.nil_append, List.cons_append, List.cons.injEq] at h
    cases h.1
    exact absurd (List.mem_cons_self ..) h2
  | c :: l1, [], r1, r2, h1, _, h => by
    simp only [List.nil_append, List.cons_append, List.cons.injEq] at h
    cases h.1
    exact absurd (List.mem_cons_self ..) h1
  | c :: l1, d :: l2, r1, r2, h1, h2, h => by
    simp only [List.cons_append, List.cons.injEq] at h
    have ih := uscore_split_inj l1 l2 r1 r2 (fun hm => h1 (List.mem_cons_of_mem _ hm))
      (fun hm => h2 (List.mem_cons_of_mem _ hm)) h.2
    exact ⟨by rw [h.1, ih.1], ih.2⟩

theorem enc_inj {c1 c2 : Nat} {a b : String} (h : enc c1 a = enc c2 b) : c1 = c2 ∧ a = b := by
  have hdata : (Nat.repr c1).data ++ '_' :: a.data = (Nat.repr c2).data ++ '_' :: b.data :=
    congrArg String.data h
  have hsplit :=
    uscore_split_inj _ _ _ _ (natRepr_no_uscore c1) (natRepr_no_uscore c2) hdata
  exact ⟨natReprData_inj hsplit.1, strData_inj hsplit.2⟩

theorem cumRename_mem :
    ∀ (seenIds l : List String) (a : String), a ∈ cumRename seenIds l →
      ∃ c id, a = enc c id ∧ id ∈ l ∧ seenIds.count id ≤ c
  | seenIds, [], a, h => absurd h (by simp [cumRename])
  | seenIds, id :: rest, a, h => by
    simp only [cumRename] at h
    rcases List.mem_cons.1 h with h1 | h1
    · exact ⟨seenIds.count id, id, h1, by simp, le_refl _⟩
    · obtain ⟨c, id2, ha, hmem, hle⟩ := cumRename_mem (seenIds ++ [id]) rest a h1
      refine ⟨c, id2, ha, List.mem_cons_of_mem _ hmem, le_trans ?_ hle⟩
      rw [List.count_append]
      exact Nat.le_add_right ..

theorem cumRename_nodup : ∀ (seenIds l : List String), (cumRename seenIds l).Nodup
  | _, [] => by simp [cumRename]
  | seenIds, id :: rest => by
    simp only [cumRename, List.nodup_cons]
    refine ⟨?_, cumRename_nodup (seenIds ++ [id]) rest⟩
    intro hmem
    obtain ⟨c, id2, ha, _, hle⟩ := cumRename_mem (seenIds ++ [id]) rest _ hmem
    obtain ⟨hc, hid⟩ := enc_inj ha
    subst hid
    have h1 : ([id].count id) = 1 := by simp
    rw [List.count_append, h1, ← hc] at hle
    omega

theorem cumRename_length :
    ∀ (seenIds l : List String), (cumRename seenIds l).length = l.length
  | _, [] => rfl
  | seenIds, id :: rest => by
    simp only [cumRename, List.length_cons]
    rw [cumRename_length (seenIds ++ [id]) rest]

theorem transform_feedback_aux_keys (parse : String → Option Nat) :
    ∀ (seenIds : List String) (rows : List RawFeedback),
      (transform_feedback_aux parse seenIds rows).map (·.feedback_id) =
        cumRename seenIds (rows.map fun r => pyStr r.feedback_id)
  | _, [] => rfl
  | seenIds, r :: rest => by
    simp only [transform_feedback_aux, cumRename, List.map_cons]
    exact congrArg _ (transform_feedback_aux_keys parse _ rest)

theorem transform_feedback_aux_length (parse : String → Option Nat) :
    ∀ (seenIds : List String) (rows : List RawFeedback),
      (transform_feedback_aux parse seenIds rows).length = rows.length
  | _, [] => rfl
  | seenIds, r :: rest => by
    simp only [transform_feedback_aux, List.length_cons]
    rw [transform_feedback_aux_length parse _ rest]

/-! ## Grouping helpers -/

theorem strMk_data (s : String) : (⟨s.data⟩ : String) = s := by
  cases s
  rfl

theorem filter_decide_length_eq_count {α κ : Type} [DecidableEq κ] (g : α → κ)
    (rows : List α) (k : κ) :
    (rows.filter fun r => decide (g r = k)).length = List.count k (rows.map g) := by
  induction rows with
  | nil => simp
  | cons a t ih =>
    simp only [List.map_cons, List.count_cons, List.filter_cons]
    by_cases h : g a = k
    · simp [h, ih]
    · simp [h, ih]

theorem sum_group_sizes {α κ : Type} [DecidableEq κ] (g : α → κ) (rows : List α) :
    ((rows.map g).dedup.map fun k => (rows.filter fun r => decide (g r = k)).length).sum
      = rows.length := by
  have h1 : ((rows.map g).dedup.map fun k => (rows.filter fun r => decide (g r = k)).length)
      = ((rows.map g).dedup.map fun k => List.count k (rows.map g)) :=
    List.map_congr_left fun k _ => filter_decide_length_eq_count g rows k
  rw [h1, List.sum_map_count_dedup_eq_length, List.length_map]

theorem fb_filter_nodup (k : Option String) :
    ∀ fb : List FeedbackRow, (fb.map (·.order_id)).Nodup →
      fb.filter (fun m => m.order_id == k) = (fb.find? fun m => m.order_id == k).toList
  | [], _ => rfl
  | m :: t, h => by
    simp only [List.map_cons, List.nodup_cons] at h
    by_cases hm : (m.order_id == k) = true
    · have hk : m.order_id = k := by simpa using hm
      have ht : t.filter (fun m2 => m2.order_id == k) = [] := by
        rw [List.filter_eq_nil_iff]
        intro x hx hxk
        have hxk2 : x.order_id = k := by simpa using hxk
        exact h.1 (by
          rw [hk, ← hxk2]
          exact List.mem_map_of_mem _ hx)
      have hfil : List.filter (fun m2 => m2.order_id == k) (m :: t)
          = m :: List.filter (fun m2 => m2.order_id == k) t := List.filter_cons_of_pos hm
      have hfind : List.find? (fun m2 => m2.order_id == k) (m :: t) = some m :=
        List.find?_cons_of_pos t hm
      rw [hfil, hfind, ht]
      rfl
    · have hfil : List.filter (fun m2 => m2.order_id == k) (m :: t)
          = List.filter (fun m2 => m2.order_id == k) t := List.filter_cons_of_neg hm
      have hfind : List.find? (fun m2 => m2.order_id == k) (m :: t)
          = List.find? (fun m2 => m2.order_id == k) t := List.find?_cons_of_neg t hm
      rw [hfil, hfind]
      exact fb_filter_nodup k t h.2

/-! ## Insertion sort (Python `sorted`) -/

theorem insertLe_length {α : Type} (le : α → α → Bool) (a : α) :
    ∀ l : List α, (insertLe le a l).length = l.length + 1
  | [] => rfl
  | b :: t => by
    simp only [insertLe]
    split
    · rfl
    · simp only [List.length_cons, insertLe_length le a t]

theorem pySorted_length {α : Type} (le : α → α → Bool) :
    ∀ l : List α, (pySorted le l).length = l.length
  | [] => rfl
  | a :: t => by
    simp only [pySorted]
    rw [insertLe_length, pySorted_length le t, List.length_cons]

/-! ## Recovering product and seller ids from the composite pair key -/

theorem takeWhile_no_dash (s : List Char) :
    ∀ p : List Char, '-' ∉ p → (p ++ '-' :: s).takeWhile (fun c => c != '-') = p
  | [], _ => by simp
  | c :: p', h => by
    have hc : c ≠ '-' := fun hh => h (by simp [hh])
    have hp' : '-' ∉ p' := fun hm => h (List.mem_cons_of_mem _ hm)
    have hb : (c != '-') = true := by simp [bne_iff_ne, hc]
    simp [List.cons_append, List.takeWhile_cons, hb, takeWhile_no_dash s p' hp']

theorem dropWhile_no_dash (s : List Char) :
    ∀ p : List Char, '-' ∉ p → ((p ++ '-' :: s).dropWhile (fun c => c != '-')).tail = s
  | [], _ => by simp
  | c :: p', h => by
    have hc : c ≠ '-' := fun hh => h (by simp [hh])
    have hp' : '-' ∉ p' := fun hm => h (List.mem_cons_of_mem _ hm)
    have hb : (c != '-') = true := by simp [bne_iff_ne, hc]
    simp [List.cons_append, List.dropWhile_cons, hb, dropWhile_no_dash s p' hp']

theorem pairKey_data {V : Type} (r : RawOrderItem V) :
    (pairKey r).data = (pyStr r.product_id).data ++ '-' :: (pyStr r.seller_id).data := rfl

theorem strUntilDash_pair {V : Type} (r : RawOrderItem V)
    (hp : '-' ∉ (pyStr r.product_id).data) :
    strUntilDash (pairKey r) = pyStr r.product_id := by
  simp only [strUntilDash, pairKey_data]
  rw [takeWhile_no_dash _ _ hp]

theorem strAfterDash_pair {V : Type} (r : RawOrderItem V)
    (hp : '-' ∉ (pyStr r.product_id).data) :
    strAfterDash (pairKey r) = pyStr r.seller_id := by
  simp only [strAfterDash, pairKey_data]
  rw [dropWhile_no_dash _ _ hp]

theorem pairKey_dash_count {V : Type} (r : RawOrderItem V)
    (hp : '-' ∉ (pyStr r.product_id).data) (hs : '-' ∉ (pyStr r.seller_id).data) :
    (pairKey r).data.count '-' = 1 := by
  rw [pairKey_data, List.count_append, List.count_cons]
  rw [List.count_eq_zero.2 hp, List.count_eq_zero.2 hs]
  simp

/-! ## Line-item aggregate helpers -/

theorem oiKey_some {V : Type} {r : RawOrderItem V} {k : String × String}
    (h : oiKey r = some k) : r.order_id = some k.1 ∧ k.2 = pairKey r := by
  cases ho : r.order_id with
  | none => simp [oiKey, ho] at h
  | some o =>
    simp only [oiKey, ho, Option.map_some', Option.some.injEq] at h
    subst h
    exact ⟨rfl, rfl⟩

theorem oiGroup_ne_nil {V : Type} (rows : List (RawOrderItem V)) (k : String × String)
    (hk : k ∈ oiKeys rows) : oiGroup rows k ≠ [] := by
  simp only [oiKeys] at hk
  obtain ⟨r, hr, hgr⟩ := List.mem_filterMap.1 (List.mem_dedup.1 hk)
  intro hnil
  have hmem : r ∈ oiGroup rows k := by
    simp only [oiGroup, List.mem_filter]
    exact ⟨hr, by simp [hgr]⟩
  rw [hnil] at hmem
  exact absurd hmem (List.not_mem_nil r)

theorem oiKeys_ne_nil {V : Type} (rows : List (RawOrderItem V))
    (hsome : ∃ r ∈ rows, r.order_id.isSome = true) : (oiKeys rows).isEmpty = false := by
  obtain ⟨r, hr, hs⟩ := hsome
  cases ho : r.order_id with
  | none => rw [ho] at hs; simp at hs
  | some o =>
    have hkey : oiKey r = some (o, pairKey r) := by simp [oiKey, ho]
    have hmem : (o, pairKey r) ∈ oiKeys rows :=
      List.mem_dedup.2 (List.mem_filterMap.2 ⟨r, hr, hkey⟩)
    cases hK : oiKeys rows with
    | nil => rw [hK] at hmem; exact absurd hmem (List.not_mem_nil _)
    | cons x xs => rfl

theorem filterMap_count_eq_filter_length {α κ : Type} [DecidableEq κ] (f : α → Option κ)
    (rows : List α) (k : κ) :
    (rows.filter fun r => decide (f r = some k)).length = List.count k (rows.filterMap f) := by
  induction rows with
  | nil => simp
  | cons a t ih =>
    simp only [List.filter_cons, List.filterMap_cons]
    cases hfa : f a with
    | none => simp [hfa, ih]
    | some v =>
      by_cases hv : v = k
      · simp [hfa, hv, ih, List.count_cons]
      · simp [hfa, hv, ih, List.count_cons]

theorem sum_group_sizes_option {α κ : Type} [DecidableEq κ] (f : α → Option κ)
    (rows : List α) :
    ((rows.filterMap f).dedup.map
        fun k => (rows.filter fun r => decide (f r = some k)).length).sum
      = (rows.filterMap f).length := by
  have h1 : ((rows.filterMap f).dedup.map
        fun k => (rows.filter fun r => decide (f r = some k)).length)
      = ((rows.filterMap f).dedup.map fun k => List.count k (rows.filterMap f)) :=
    List.map_congr_left fun k _ => filterMap_count_eq_filter_length f rows k
  rw [h1, List.sum_map_count_dedup_eq_length]

theorem filterMap_oiKey_length {V : Type} (rows : List (RawOrderItem V)) :
    (rows.filterMap oiKey).length = (rows.filter fun r => r.order_id.isSome).length := by
  induction rows with
  | nil => rfl
  | cons a t ih =>
    simp only [List.filterMap_cons, List.filter_cons]
    cases ho : a.order_id with
    | none => simp [oiKey, ho, ih]
    | some o => simp [oiKey, ho, ih]

theorem oiJoined_parts_length {V : Type} (grp : List (RawOrderItem V)) (h : grp ≠ []) :
    (splitCS (oiJoined grp)).length = grp.length := by
  have hparts : ((pySorted intLeB (grp.map (·.order_item_id))).map
      fun i => (Int.repr i).data) ≠ [] := by
    intro hnil
    have hlen := congrArg List.length hnil
    simp only [List.length_map, pySorted_length, List.length_nil] at hlen
    exact h (List.length_eq_zero.1 hlen)
  have hnc : ∀ p ∈ (pySorted intLeB (grp.map (·.order_item_id))).map
      (fun i => (Int.repr i).data), ',' ∉ p := by
    intro p hp
    obtain ⟨i, _, hi⟩ := List.mem_map.1 hp
    rw [← hi]
    exact intRepr_no_comma i
  rw [oiJoined, splitCS_joinCS _ hparts hnc, List.length_map, pySorted_length, List.length_map]

theorem oi_no_dash_cond {V : Type} (rows : List (RawOrderItem V))
    (hd : ∀ r ∈ rows, '-' ∉ (pyStr r.product_id).data ∧ '-' ∉ (pyStr r.seller_id).data) :
    ((oiKeys rows).any fun k => k.2.data.count '-' != 1) = false := by
  rw [List.any_eq_false]
  intro k hk
  simp only [oiKeys] at hk
  obtain ⟨r, hr, hgr⟩ := List.mem_filterMap.1 (List.mem_dedup.1 hk)
  have hk2 := (oiKey_some hgr).2
  have hcount := pairKey_dash_count r (hd r hr).1 (hd r hr).2
  rw [hk2]
  simp [hcount]

/-! ## Key columns of the simple dimension transforms -/

theorem transform_payments_keys {V : Type} [Add V] [Zero V] (rows : List (RawPayment V)) :
    (transform_payments_table rows).map (·.payment_id)
      = (rows.map fun r => pyStr r.order_id).dedup := by
  simp only [transform_payments_table, List.map_map]
  have hcomp : ((fun q : PaymentRow V => q.payment_id) ∘ payMkRow rows) = id :=
    funext fun k => rfl
  rw [hcomp, List.map_id]

theorem transform_users_keys (rows : List RawUser) :
    (transform_users_table rows).map (·.user_id)
      = (rows.map fun r => pyStr r.user_name).dedup := by
  simp only [transform_users_table, List.map_map]
  have hcomp : ((fun q : UserRow => q.user_id) ∘ userMkRow rows) = id :=
    funext fun k => rfl
  rw [hcomp, List.map_id]

theorem transform_products_keys (rows : List RawProduct) :
    (transform_products_table rows).map (·.product_id)
      = rows.map fun r => pyStr r.product_id := by
  simp only [transform_products_table, List.map_map]
  rfl

theorem transform_sellers_keys (rows : List RawSeller) :
    (transform_sellers_table rows).map (·.seller_id)
      = rows.map fun r => pyStr r.seller_id := by
  simp only [transform_sellers_table, List.map_map]
  rfl

/-! ## The orders/feedback merge -/

theorem transform_orders_eq_map (parse : String → Option Nat) (fb : List FeedbackRow)
    (hfb : (fb.map (·.order_id)).Nodup) :
    ∀ orders : List RawOrder,
      transform_orders_table parse orders fb =
        orders.map fun o =>
          coerceOrder parse o
            ((fb.find? fun m => m.order_id == some (pyStr o.order_id)).map (·.feedback_id))
  | [] => rfl
  | o :: rest => by
    have ih := transform_orders_eq_map parse fb hfb rest
    simp only [transform_orders_table] at ih ⊢
    have hhead : (match fb.filter (fun m => m.order_id == some (pyStr o.order_id)) with
        | [] => [coerceOrder parse o none]
        | m :: ms => (m :: ms).map fun m2 => coerceOrder parse o (some m2.feedback_id))
        = [coerceOrder parse o
            ((fb.find? fun m => m.order_id == some (pyStr o.order_id)).map (·.feedback_id))] := by
      rw [fb_filter_nodup (some (pyStr o.order_id)) fb hfb]
      cases hf : fb.find? fun m => m.order_id == some (pyStr o.order_id) with
      | none => rfl
      | some m => rfl
    rw [List.flatMap_cons, hhead, List.map_cons, ← ih, List.singleton_append]

/-! ## Claim C1 -/

/-- C1, counterexample: the products transformer performs no deduplication,
so a staging input in which the natural key `product_id` repeats yields a
dimension table whose declared primary-key column has duplicates. This
refutes the claim's universal statement over all five dimension
transformers and all staging inputs. -/
theorem C1_products_duplicate_key :
    ¬ ((transform_products_table [productA, productA]).map (·.product_id)).Nodup := by
  decide

/-- C1 (amended): the grouping transformers (feedback, payments, users)
produce a duplicate-free, non-null key column for EVERY staging input; the
products and sellers transformers are per-row recodings, so their key
column is duplicate-free exactly when the staged key column already is.
(Non-nullness holds for all five: `astype(str)` turns a missing key into
the string "nan", so the output key columns contain strings, never nulls.) -/
theorem C1_key_uniqueness (V : Type) [Add V] [Zero V] :
    (∀ (parse : String → Option Nat) (rows : List RawFeedback),
        ((transform_feedback_table parse rows).map (·.feedback_id)).Nodup)
    ∧ (∀ rows : List (RawPayment V),
        ((transform_payments_table rows).map (·.payment_id)).Nodup)
    ∧ (∀ rows : List RawUser,
        ((transform_users_table rows).map (·.user_id)).Nodup)
    ∧ (∀ rows : List RawProduct,
        (rows.map fun r => pyStr r.product_id).Nodup →
        ((transform_products_table rows).map (·.product_id)).Nodup)
    ∧ (∀ rows : List RawSeller,
        (rows.map fun r => pyStr r.seller_id).Nodup →
        ((transform_sellers_table rows).map (·.seller_id)).Nodup) := by
  refine ⟨fun parse rows => ?_, fun rows => ?_, fun rows => ?_,
    fun rows h => ?_, fun rows h => ?_⟩
  · simp only [transform_feedback_table]
    rw [transform_feedback_aux_keys]
    exact cumRename_nodup [] _
  · rw [transform_payments_keys]
    exact List.nodup_dedup _
  · rw [transform_users_keys]
    exact List.nodup_dedup _
  · rw [transform_products_keys]
    exact h
  · rw [transform_sellers_keys]
    exact h

/-- Witness for C1: the products/sellers conjuncts applied at concrete
duplicate-free inputs. -/
theorem C1_key_uniqueness_witness :
    ((transform_products_table [productA]).map (·.product_id)).Nodup
    ∧ ((transform_sellers_table [sellerA]).map (·.seller_id)).Nodup :=
  ⟨(C1_key_uniqueness Int).2.2.2.1 [productA] (by decide),
   (C1_key_uniqueness Int).2.2.2.2 [sellerA] (by decide)⟩

/-! ## Claim C2 -/

/-- C2, counterexample: the left merge fans out. With two feedback rows for
the same order id, the single staged order produces TWO output rows, so the
transformer does not output exactly one row per order identifier. -/
theorem C2_merge_fanout :
    ¬ (((transform_orders_table pNone [orderRawA]
        (transform_feedback_table pNone [fbRawA, fbRawB])).map (·.order_id)).Nodup) := by
  decide

/-- C2 (amended): the order transformer outputs one row per
(order row, matching feedback row). When each order id occurs at most once
in the feedback dimension, the output is exactly one row per staged order
row, each carrying the key of the unique matching feedback row (`find?`),
and a null feedback key when no feedback matches; if additionally the
staged order ids are unique, the output has exactly one row per order
identifier. -/
theorem C2_one_row_per_order (parse : String → Option Nat) (orders : List RawOrder)
    (fb : List FeedbackRow) (hfb : (fb.map (·.order_id)).Nodup) :
    transform_orders_table parse orders fb =
      (orders.map fun o => coerceOrder parse o
        ((fb.find? fun m => m.order_id == some (pyStr o.order_id)).map (·.feedback_id)))
    ∧ (∀ o ∈ orders, (∀ m ∈ fb, m.order_id ≠ some (pyStr o.order_id)) →
        coerceOrder parse o none ∈ transform_orders_table parse orders fb)
    ∧ ((orders.map fun o => pyStr o.order_id).Nodup →
        ((transform_orders_table parse orders fb).map (·.order_id)).Nodup) := by
  have heq := transform_orders_eq_map parse fb hfb orders
  refine ⟨heq, fun o ho hno => ?_, fun hord => ?_⟩
  · have hfind : (fb.find? fun m => m.order_id == some (pyStr o.order_id)) = none := by
      rw [List.find?_eq_none]
      intro m hm
      simp only [beq_iff_eq]
      exact hno m hm
    rw [heq]
    have := List.mem_map_of_mem
      (fun o2 => coerceOrder parse o2
        ((fb.find? fun m => m.order_id == some (pyStr o2.order_id)).map (·.feedback_id))) ho
    simpa [hfind] using this
  · rw [heq, List.map_map]
    have hcomp : ((fun q : OrderRow => q.order_id) ∘ fun o =>
        coerceOrder parse o
          ((fb.find? fun m => m.order_id == some (pyStr o.order_id)).map (·.feedback_id)))
        = fun o => pyStr o.order_id := funext fun o => rfl
    rw [hcomp]
    exact hord

/-- Witness for C2: the row-per-order equation applied at a concrete order
and a one-row feedback dimension. -/
theorem C2_one_row_per_order_witness :
    transform_orders_table pNone [orderRawA] (transform_feedback_table pNone [fbRawA]) =
      ([orderRawA].map fun o => coerceOrder pNone o
        (((transform_feedback_table pNone [fbRawA]).find?
            fun m => m.order_id == some (pyStr o.order_id)).map (·.feedback_id))) :=
  (C2_one_row_per_order pNone [orderRawA] (transform_feedback_table pNone [fbRawA])
    (by decide)).1

/-! ## Claim C6 -/

/-- C6, counterexample: the synthesized key is the running count PREPENDED
to the original key (`"0_a"`), not the original key with an appended
counter suffix (`"a_0"`) as the claim states. -/
theorem C6_counter_position :
    ((transform_feedback_table pNone [fbRawA]).map (·.feedback_id) = ["0_a"])
    ∧ ((transform_feedback_table pNone [fbRawA]).map (·.feedback_id) ≠
        specSuffixRename [] ([fbRawA].map fun r => pyStr r.feedback_id)) := by
  constructor
  · decide
  · decide

/-- C6 (amended): the feedback transformer synthesizes each output key by
PREPENDING the per-value running count to the original key (separated by
an underscore); the synthesized keys are globally unique and no input row
is discarded. -/
theorem C6_key_synthesis (parse : String → Option Nat) (rows : List RawFeedback) :
    ((transform_feedback_table parse rows).map (·.feedback_id) =
      cumRename [] (rows.map fun r => pyStr r.feedback_id))
    ∧ ((transform_feedback_table parse rows).map (·.feedback_id)).Nodup
    ∧ (transform_feedback_table parse rows).length = rows.length := by
  refine ⟨?_, ?_, ?_⟩
  · simp only [transform_feedback_table]
    exact transform_feedback_aux_keys parse [] rows
  · simp only [transform_feedback_table]
    rw [transform_feedback_aux_keys]
    exact cumRename_nodup [] _
  · simp only [transform_feedback_table]
    exact transform_feedback_aux_length parse [] rows

/-! ## Claim C3 -/

/-- C3, counterexample: two raw rows in the same (order, product, seller)
group carrying the SAME line-item id produce one output row with
`quantity = 2`, while the number of distinct line-item ids merged is 1.
The code counts the merged ids with multiplicity (the group's row count),
not the number of distinct ids as the claim states. -/
theorem C3_quantity_multiplicity :
    (Option.map (fun l => l.map (·.quantity)) (transform_order_item_table [oiRawA, oiRawA])
      = some [2])
    ∧ (([oiRawA, oiRawA].map (·.order_item_id)).dedup.length = 1) := by
  constructor
  · decide
  · decide

/-- C3 (amended): pandas `groupby` drops rows whose `order_id` is missing
(the code never casts `order_id` to string). For every raw order-line
record set containing at least one row with a non-null order id, and whose
product and seller ids contain no `'-'` character, the transformer groups
the remaining rows by (order id, product id, seller id) — implemented via
the concatenated pair string — and emits exactly one output row per group
(the group triples are distinct, every input row WITH a non-null order id
has its triple covered, and every row of a group carries that group's
order id); each output row carries the comma-joined ascending-sorted
line-item ids, the summed price and shipping cost, and `quantity` equal to
the NUMBER OF ROWS of its group (counting duplicate line-item ids with
multiplicity). -/
theorem C3_line_item_grouping (V : Type) [Add V] [Zero V] (rows : List (RawOrderItem V))
    (hsome : ∃ r ∈ rows, r.order_id.isSome = true)
    (hd : ∀ r ∈ rows, '-' ∉ (pyStr r.product_id).data ∧ '-' ∉ (pyStr r.seller_id).data) :
    transform_order_item_table rows = some ((oiKeys rows).map (oiMkRow rows))
    ∧ (((oiKeys rows).map (oiMkRow rows)).map keyTriple).Nodup
    ∧ (∀ r ∈ rows, ∀ oid : String, r.order_id = some oid →
        (oid, pyStr r.product_id, pyStr r.seller_id) ∈
          ((oiKeys rows).map (oiMkRow rows)).map keyTriple)
    ∧ (∀ k ∈ oiKeys rows, ∀ r ∈ oiGroup rows k, r.order_id = some k.1)
    ∧ (∀ k ∈ oiKeys rows,
        (oiMkRow rows k).order_item_id = (⟨oiJoined (oiGroup rows k)⟩ : String)
        ∧ (oiMkRow rows k).price = ((oiGroup rows k).map (·.price)).sum
        ∧ (oiMkRow rows k).shipping_cost = ((oiGroup rows k).map (·.shipping_cost)).sum
        ∧ (oiMkRow rows k).quantity = (oiGroup rows k).length) := by
  have hdecomp : ∀ k ∈ oiKeys rows, ∃ p s : String, '-' ∉ p.data
      ∧ k.2 = (⟨p.data ++ '-' :: s.data⟩ : String)
      ∧ strUntilDash k.2 = p ∧ strAfterDash k.2 = s := by
    intro k hk
    simp only [oiKeys] at hk
    obtain ⟨r, hr, hgr⟩ := List.mem_filterMap.1 (List.mem_dedup.1 hk)
    have hk2 := (oiKey_some hgr).2
    refine ⟨pyStr r.product_id, pyStr r.seller_id, (hd r hr).1, ?_, ?_, ?_⟩
    · rw [hk2]
      rfl
    · rw [hk2]
      exact strUntilDash_pair r (hd r hr).1
    · rw [hk2]
      exact strAfterDash_pair r (hd r hr).1
  have htriple : ∀ k, keyTriple (oiMkRow rows k)
      = (k.1, strUntilDash k.2, strAfterDash k.2) := fun k => rfl
  have hinj : ∀ x ∈ oiKeys rows, ∀ y ∈ oiKeys rows,
      (keyTriple ∘ oiMkRow rows) x = (keyTriple ∘ oiMkRow rows) y → x = y := by
    intro x hx y hy hxy
    obtain ⟨px, sx, _, hx2, hxu, hxa⟩ := hdecomp x hx
    obtain ⟨py, sy, _, hy2, hyu, hya⟩ := hdecomp y hy
    simp only [Function.comp, htriple, Prod.mk.injEq] at hxy
    obtain ⟨h1, h2, h3⟩ := hxy
    rw [hxu, hyu] at h2
    rw [hxa, hya] at h3
    have hx2y : x.2 = y.2 := by rw [hx2, hy2, h2, h3]
    exact Prod.ext h1 hx2y
  refine ⟨?_, ?_, ?_, ?_, ?_⟩
  · simp only [transform_order_item_table]
    rw [oiKeys_ne_nil rows hsome, oi_no_dash_cond rows hd]
    rfl
  · rw [List.map_map]
    exact List.Nodup.map_on hinj (List.nodup_dedup _)
  · intro r hr oid hoid
    have hkey : oiKey r = some (oid, pairKey r) := by simp [oiKey, hoid]
    have hk : (oid, pairKey r) ∈ oiKeys rows :=
      List.mem_dedup.2 (List.mem_filterMap.2 ⟨r, hr, hkey⟩)
    rw [List.map_map]
    have hval : (keyTriple ∘ oiMkRow rows) (oid, pairKey r)
        = (oid, pyStr r.product_id, pyStr r.seller_id) := by
      show (oid, strUntilDash (pairKey r), strAfterDash (pairKey r)) = _
      rw [strUntilDash_pair r (hd r hr).1, strAfterDash_pair r (hd r hr).1]
    rw [← hval]
    exact List.mem_map_of_mem _ hk
  · intro k hk r hrg
    simp only [oiGroup, List.mem_filter] at hrg
    exact (oiKey_some (of_decide_eq_true hrg.2)).1
  · intro k hk
    refine ⟨rfl, rfl, rfl, ?_⟩
    exact oiJoined_parts_length _ (oiGroup_ne_nil rows k hk)

/-- Witness for C3: the grouping theorem applied at a one-row input with a
present order id. -/
theorem C3_line_item_grouping_witness :
    transform_order_item_table [oiRawA] = some ((oiKeys [oiRawA]).map (oiMkRow [oiRawA])) :=
  (C3_line_item_grouping Int [oiRawA] (by decide) (by decide)).1

/-! ## Claim C4 -/

/-- C4, counterexample: the line-item `groupby` silently drops rows whose
`order_id` is missing (the code never casts `order_id` to string, and
pandas drops NA group keys). With one missing-key row and one ordinary row
the transform succeeds with total quantity 1, while the raw input has 2
rows — so `sum(quantity across all groups) = count(raw line-item rows)` is
false of the program. -/
theorem C4_missing_order_id :
    (Option.map (fun l => (l.map (·.quantity)).sum)
        (transform_order_item_table [oiRawNone, oiRawA]) = some 1)
    ∧ [oiRawNone, oiRawA].length = 2 := by
  constructor
  · decide
  · decide

/-- C4 (amended): aggregation conservation. For the line-item aggregate,
whenever the transform succeeds, the quantities summed over all output
rows equal the number of raw input rows WITH a non-null order id (rows
with a missing order id are dropped by the groupby); for payments, the
merged row of each order key carries exactly the sum of the raw payment
values of that order. -/
theorem C4_aggregation_conservation (V : Type) [Add V] [Zero V] :
    (∀ rows : List (RawOrderItem V),
      (transform_order_item_table rows).elim True
        fun out => (out.map (·.quantity)).sum
          = (rows.filter fun r => r.order_id.isSome).length)
    ∧ (∀ (rows : List (RawPayment V)) (k : String),
        k ∈ (rows.map fun r => pyStr r.order_id).dedup →
        ∃ q ∈ transform_payments_table rows, q.payment_id = k ∧
          q.payment_value
            = ((rows.filter fun r => decide (pyStr r.order_id = k)).map
                (·.payment_value)).sum) := by
  constructor
  · intro rows
    simp only [transform_order_item_table]
    by_cases hcond : ((oiKeys rows).isEmpty
        || (oiKeys rows).any fun k => k.2.data.count '-' != 1) = true
    · simp [hcond]
    · simp only [Bool.not_eq_true] at hcond
      simp only [hcond, Bool.false_eq_true, if_false, Option.elim]
      rw [List.map_map]
      have hcong : (oiKeys rows).map ((fun q : OrderItemRow V => q.quantity) ∘ oiMkRow rows)
          = (oiKeys rows).map fun k => (oiGroup rows k).length := by
        refine List.map_congr_left fun k hk => ?_
        show (splitCS (oiJoined (oiGroup rows k))).length = (oiGroup rows k).length
        exact oiJoined_parts_length _ (oiGroup_ne_nil rows k hk)
      rw [hcong, ← filterMap_oiKey_length]
      exact sum_group_sizes_option oiKey rows
  · intro rows k hk
    exact ⟨payMkRow rows k, List.mem_map_of_mem _ hk, rfl, rfl⟩

/-- Witness for C4: the payments conservation applied at a concrete
single-payment input. -/
theorem C4_aggregation_conservation_witness :
    ∃ q ∈ transform_payments_table [payRawA], q.payment_id = "o1" ∧
      q.payment_value
        = (([payRawA].filter fun r => decide (pyStr r.order_id = "o1")).map
            (·.payment_value)).sum :=
  (C4_aggregation_conservation Int).2 [payRawA] "o1" (by decide)

/-! ## Claim C5 -/

theorem deliveryDelayDays_nonneg (dn en : Option Int) (v : Int)
    (h : deliveryDelayDays dn en = some v) : 0 ≤ v := by
  cases dn with
  | none => simp [deliveryDelayDays, dateDiffSql] at h
  | some a =>
    cases en with
    | none => simp [deliveryDelayDays, dateDiffSql] at h
    | some b =>
      simp only [deliveryDelayDays, dateDiffSql] at h
      by_cases hlt : a - b < 0
      · rw [if_pos hlt] at h
        have hv := Option.some.inj h
        omega
      · rw [if_neg hlt] at h
        have hv := Option.some.inj h
        omega

/-- C5: for fact rows whose delivered and estimated dates both join against
the calendar, `DeliveryDelayDays` equals `max 0 (delivered − estimated)` in
whole days; every value the measure takes is `≥ 0`; and it is `some 0`
whenever the delivered date is on or before the estimated date. -/
theorem C5_delay_clamp (delivered estimated : Date)
    (hd : delivered ∈ date_d) (he : estimated ∈ date_d) :
    factDelayDays (some delivered) (some estimated)
        = some (max 0 (dayNum delivered - dayNum estimated))
    ∧ (∀ (od oe : Option Date) (v : Int), factDelayDays od oe = some v → 0 ≤ v)
    ∧ (dayNum delivered ≤ dayNum estimated →
        factDelayDays (some delivered) (some estimated) = some 0) := by
  have hcal : calLookup delivered = some delivered := by simp [calLookup, hd]
  have hcal2 : calLookup estimated = some estimated := by simp [calLookup, he]
  have h1 : factDelayDays (some delivered) (some estimated)
      = some (max 0 (dayNum delivered - dayNum estimated)) := by
    show deliveryDelayDays ((calLookup delivered).map dayNum)
        ((calLookup estimated).map dayNum) = _
    rw [hcal, hcal2]
    show deliveryDelayDays (some (dayNum delivered)) (some (dayNum estimated)) = _
    simp only [deliveryDelayDays, dateDiffSql]
    by_cases hlt : dayNum delivered - dayNum estimated < 0
    · rw [if_pos hlt, max_eq_left (le_of_lt hlt)]
    · rw [if_neg hlt, max_eq_right (not_lt.1 hlt)]
  refine ⟨h1, ?_, ?_⟩
  · intro od oe v h
    exact deliveryDelayDays_nonneg _ _ v h
  · intro hle
    rw [h1, max_eq_left (by omega)]

/-! ## Claim C7 -/

/-- C7, counterexample: `transform_date_columns` selects columns by the
substring `"_date"` of the lower-cased name. The estimated delivery column
is named `estimated_time_delivery`, which does not contain `"_date"`, so
even with a parser that accepts every value the column is left raw and
uncoerced — refuting the claim that EVERY timestamp-bearing column
(including the estimated column) is coerced. -/
theorem C7_estimated_not_coerced :
    transform_date_columns pSome estTbl = estTbl
    ∧ colAllDt (transform_date_columns pSome estTbl) "estimated_time_delivery" = false := by
  constructor
  · decide
  · decide

/-- C7 (amended): exactly the columns whose lower-cased name contains
`"_date"` are coerced by the best-effort parse (missing or unparseable
values becoming the explicit `none` marker, never a failure); all other
columns — in particular `estimated_time_delivery` — pass through
unchanged, and no rows or columns are dropped. -/
theorem C7_date_column_filter (parse : String → Option Nat)
    (tbl : List (String × List PCell)) (nm : String) (cells : List PCell)
    (hmem : (nm, cells) ∈ tbl) :
    (hasSub "_date".data (pyLower nm).data = true →
        (nm, coerceCol parse cells) ∈ transform_date_columns parse tbl)
    ∧ (hasSub "_date".data (pyLower nm).data = false →
        (nm, cells) ∈ transform_date_columns parse tbl)
    ∧ (transform_date_columns parse tbl).length = tbl.length
    ∧ coerceCol parse cells = cells.map (fun c => match c with
        | PCell.rawv v => PCell.dt (v.bind parse)
        | PCell.dt v => PCell.dt v) := by
  refine ⟨fun hc => ?_, fun hc => ?_, by simp [transform_date_columns], rfl⟩
  · have hmap := List.mem_map_of_mem
      (fun col : String × List PCell =>
        if hasSub "_date".data (pyLower col.1).data then (col.1, coerceCol parse col.2)
        else col) hmem
    simpa [transform_date_columns, hc] using hmap
  · have hmap := List.mem_map_of_mem
      (fun col : String × List PCell =>
        if hasSub "_date".data (pyLower col.1).data then (col.1, coerceCol parse col.2)
        else col) hmem
    simpa [transform_date_columns, hc] using hmap

/-- Witness for C7: a genuine `_date` column is coerced. -/
theorem C7_date_column_filter_witness :
    ("delivered_date", coerceCol pSome [PCell.rawv (some "2017-11-27 08:00:00")]) ∈
      transform_date_columns pSome dlvTbl :=
  (C7_date_column_filter pSome dlvTbl "delivered_date"
    [PCell.rawv (some "2017-11-27 08:00:00")] (by decide)).1 (by decide)

/-! ## Claim C8 -/

/-- C8: the fact-table late flag. `DeliveryDelayCheck` is the string "TRUE"
exactly when both the delivered and the estimated date keys are non-null
and the delivered key is strictly greater; in every other case — including
whenever either joined date key is null — it is the string "FALSE". -/
theorem C8_delay_flag (od oe : Option Date) :
    (factDelayCheck od oe = "TRUE" ↔
      ∃ a b : Date, od.bind calLookup = some a ∧ oe.bind calLookup = some b
        ∧ dateKey b < dateKey a)
    ∧ ((od.bind calLookup = none ∨ oe.bind calLookup = none) →
        factDelayCheck od oe = "FALSE")
    ∧ (factDelayCheck od oe = "TRUE" ∨ factDelayCheck od oe = "FALSE") := by
  have hval : factDelayCheck od oe
      = deliveryDelayCheck ((od.bind calLookup).map fun d => (dateKey d : Int))
          ((oe.bind calLookup).map fun d => (dateKey d : Int)) := rfl
  cases h1 : od.bind calLookup with
  | none =>
    have hf : factDelayCheck od oe = "FALSE" := by
      rw [hval, h1]
      cases h2 : oe.bind calLookup <;> rfl
    refine ⟨?_, fun _ => hf, Or.inr hf⟩
    rw [hf]
    constructor
    · intro h; exact absurd h (by decide)
    · rintro ⟨a, b, ha, -, -⟩
      exact absurd ha (by simp)
  | some a =>
    cases h2 : oe.bind calLookup with
    | none =>
      have hf : factDelayCheck od oe = "FALSE" := by
        rw [hval, h1, h2]; rfl
      refine ⟨?_, fun _ => hf, Or.inr hf⟩
      rw [hf]
      constructor
      · intro h; exact absurd h (by decide)
      · rintro ⟨a', b', -, hb, -⟩
        exact absurd hb (by simp)
    | some b =>
      by_cases hab : dateKey b < dateKey a
      · have ht : factDelayCheck od oe = "TRUE" := by
          rw [hval, h1, h2]
          simp [deliveryDelayCheck, sqlGtB, Int.ofNat_lt, hab]
        refine ⟨?_, fun hnull => ?_, Or.inl ht⟩
        · rw [ht]
          exact ⟨fun _ => ⟨a, b, rfl, rfl, hab⟩, fun _ => rfl⟩
        · rcases hnull with hn | hn
          · exact absurd hn (by simp)
          · exact absurd hn (by simp)
      · have hf : factDelayCheck od oe = "FALSE" := by
          rw [hval, h1, h2]
          simp [deliveryDelayCheck, sqlGtB, Int.ofNat_lt, hab]
        refine ⟨?_, fun _ => hf, Or.inr hf⟩
        rw [hf]
        constructor
        · intro h; exact absurd h (by decide)
        · rintro ⟨a', b', ha, hb, hlt⟩
          rw [← Option.some.inj ha, ← Option.some.inj hb] at hlt
          exact absurd hlt hab

/-- Witness for C8: both joined keys null yields the flag "FALSE". -/
theorem C8_delay_flag_witness : factDelayCheck none none = "FALSE" :=
  (C8_delay_flag none none).2.1 (Or.inl rfl)

/-! ## Claim C10 -/

/-- C10: schema inference of the raw loader. If at least one cell of a
column parses numerically, the whole column is coerced to a numeric
(integer or float) column in which every missing or unparseable cell
becomes `0`/`0.0` — so numeric columns contain no missing values; a column
with no numeric and no datetime parse falls through to text with every
missing cell replaced by the empty string. (Only the datetime constructor
of `SCol` retains optional cells.) -/
theorem C10_schema_inference (pnum : String → Option Rat) (pdate : String → Option Nat)
    (col : List (Option String)) :
    ((col.map fun c => c.bind pnum).any Option.isSome = true →
      inferColumn pnum pdate col = SCol.intsc (col.map fun c => ((c.bind pnum).getD 0).num)
      ∨ inferColumn pnum pdate col = SCol.floatsc (col.map fun c => (c.bind pnum).getD 0))
    ∧ ((col.map fun c => c.bind pnum).any Option.isSome = false →
       (col.map fun c => c.bind pdate).any Option.isSome = false →
        inferColumn pnum pdate col = SCol.textsc (col.map fun c => c.getD "")) := by
  constructor
  · intro h
    simp only [inferColumn, h, if_true]
    by_cases hw : ((col.map fun c => c.bind pnum).all fun o =>
        match o with | some q => q.den == 1 | none => true) = true
    · left
      rw [if_pos hw, List.map_map]
      rfl
    · right
      rw [if_neg hw, List.map_map]
      rfl
  · intro h1 h2
    simp only [inferColumn, h1, h2]
    rfl

/-- Witness for C10: a column with one parseable value `"n"` (numeric, value
2, whole) and one missing cell infers as a numeric column with the missing
cell filled by zero. -/
theorem C10_schema_inference_witness :
    inferColumn pnumW pNone [some "n", none]
        = SCol.intsc ([some "n", none].map fun c => ((c.bind pnumW).getD 0).num)
    ∨ inferColumn pnumW pNone [some "n", none]
        = SCol.floatsc ([some "n", none].map fun c => (c.bind pnumW).getD 0) :=
  (C10_schema_inference pnumW pNone [some "n", none]).1 (by decide)

/-! ## Claim C9 -/

theorem adjChainB_chain' {α : Type} (f : α → α → Bool) :
    ∀ l : List α, adjChainB f l = true → List.Chain' (fun a b => f a b = true) l
  | [] => fun _ => List.chain'_nil
  | [a] => fun _ => by simp
  | a :: b :: t => fun h => by
    simp only [adjChainB, Bool.and_eq_true] at h
    exact List.chain'_cons.2 ⟨h.1, adjChainB_chain' f (b :: t) h.2⟩

theorem nodup_of_adjKeys {α : Type} (key : α → Nat) (l : List α)
    (h : adjChainB (fun a b => decide (key a < key b)) l = true) : l.Nodup := by
  have h1 := adjChainB_chain' (fun a b => decide (key a < key b)) l h
  have h2 : List.Chain' (fun a b => key a < key b) l :=
    h1.imp fun _ _ hab => of_decide_eq_true hab
  haveI : IsTrans α (fun a b => key a < key b) := ⟨fun _ _ _ => Nat.lt_trans⟩
  have h3 := List.chain'_iff_pairwise.1 h2
  exact h3.imp fun hab heq => absurd (heq ▸ hab) (lt_irrefl _)

set_option maxRecDepth 400000 in
/-- C9: calendar completeness. The date dimension is exactly the consecutive
run of calendar days starting at 2016-04-09 and ending at 2018-10-17 (each
successive row is the calendar successor of the previous one, the list has
no duplicates, and it has 922 rows — the size of the inclusive range); the
time dimension has exactly 1440 rows, running minute by minute from 00:00
to 23:59 with no gaps and no duplicates. -/
theorem C9_calendar_completeness :
    date_d.length = 922
    ∧ date_d.head? = some startDate
    ∧ date_d.getLast? = some endDate
    ∧ List.Chain' (fun a b => b = nextDay a) date_d
    ∧ date_d.Nodup
    ∧ times_d.length = 1440
    ∧ times_d.head? = some ⟨0, 0⟩
    ∧ times_d.getLast? = some ⟨23, 59⟩
    ∧ List.Chain' (fun a b => b = nextMinute a) times_d
    ∧ times_d.Nodup := by
  refine ⟨by decide, by decide, by decide, ?_, ?_, by decide, by decide, by decide, ?_, ?_⟩
  · exact (adjChainB_chain' (fun a b => b == nextDay a) date_d (by decide)).imp
      fun _ _ hab => eq_of_beq hab
  · exact nodup_of_adjKeys dateKey date_d (by decide)
  · exact (adjChainB_chain' (fun a b => b == nextMinute a) times_d (by decide)).imp
      fun _ _ hab => eq_of_beq hab
  · exact nodup_of_adjKeys timeKey times_d (by decide)

set_option maxRecDepth 400000 in
/-- Witness for C5: a concrete late delivery (2017-11-27 against estimated
2017-11-25, both in the calendar range) has a clamped delay of two days. -/
theorem C5_delay_clamp_witness :
    factDelayDays (some ⟨2017, 11, 27⟩) (some ⟨2017, 11, 25⟩)
        = some (max 0 (dayNum ⟨2017, 11, 27⟩ - dayNum ⟨2017, 11, 25⟩)) :=
  (C5_delay_clamp ⟨2017, 11, 27⟩ ⟨2017, 11, 25⟩ (by decide) (by decide)).1

end SocialSignals
